import Mathlib

/-
Verification of the expression-language evaluator in
src/assets/scripts/components/expression-language-parser.js.

The JavaScript class ExpressionLanguageParser is embedded shallowly:
every method of the class becomes a Lean function over lists of
characters, translated clause by clause from the source.  JavaScript
numbers are modelled by exact fractions of integers together with the
special values NaN, Infinity and -Infinity; double rounding is not
modelled (every arithmetic fact proved below stays within the range
where double arithmetic is exact).  JavaScript strings are lists of
characters.  The mutable `this.environment` object is threaded through
every function as an explicit association list, so that the mutations
performed by assignments and by the `@it` slot are visible in the
results.
-/

namespace ExprLang

/-- Characters of a JavaScript string, in order. -/
abbrev Chars := List Char

/-- Shorthand turning a Lean string literal into the character list used
by the embedding. -/
def cs (s : String) : Chars := s.toList

/-- Whitespace characters recognised by JavaScript `trim`, `\s` and
`parseFloat` (the ones that can occur in the repository's inputs). -/
def isWsChar (c : Char) : Bool :=
  c = ' ' || c = '\t' || c = '\n' || c = '\x0d' || c = '\x0c' || c = '\x0b'

/-- Drop leading JavaScript whitespace. -/
def dropWs : Chars → Chars
  | [] => []
  | c :: t => if isWsChar c then dropWs t else c :: t

/-- JavaScript `String.prototype.trim`. -/
def trimJS (s : Chars) : Chars :=
  ((dropWs ((dropWs s).reverse)).reverse)

/-- Does `s` start with `p` (JavaScript `startsWith`, also used to test a
regex literal at a position)? -/
def leadsWith : Chars → Chars → Bool
  | _, [] => true
  | [], _ :: _ => false
  | c :: s, d :: p => c = d && leadsWith s p

/-- JavaScript `String.prototype.endsWith`. -/
def endsWithJS (s p : Chars) : Bool :=
  leadsWith s.reverse p.reverse

/-- JavaScript `String.prototype.includes` for a substring. -/
def containsSub : Chars → Chars → Bool
  | s, sub =>
    if leadsWith s sub then true
    else match s with
      | [] => false
      | _ :: t => containsSub t sub

/-- JavaScript `indexOf` for a substring: index of the first occurrence. -/
def indexOfSubAux : Chars → Chars → Nat → Option Nat
  | s, sub, i =>
    if leadsWith s sub then some i
    else match s with
      | [] => none
      | _ :: t => indexOfSubAux t sub (i + 1)

def indexOfSub (s sub : Chars) : Option Nat := indexOfSubAux s sub 0

/-- JavaScript `indexOf` for a single character. -/
def indexOfChar (s : Chars) (c : Char) : Option Nat := indexOfSub s [c]

/-- JavaScript `indexOf(c, from)`: first occurrence at or after `from`. -/
def indexOfCharFrom (s : Chars) (c : Char) (start : Nat) : Option Nat :=
  match indexOfChar (s.drop start) c with
  | none => none
  | some i => some (start + i)

/-- JavaScript `lastIndexOf` for a single character. -/
def lastIndexOfChar (s : Chars) (c : Char) : Option Nat :=
  match indexOfChar s.reverse c with
  | none => none
  | some i => some (s.length - 1 - i)

/-- JavaScript `substring(i, j)` (clamps both ends and swaps them when
`i > j`). -/
def jsSubstring (s : Chars) (i j : Int) : Chars :=
  let len : Int := s.length
  let clamp : Int → Nat := fun x => (max 0 (min x len)).toNat
  let a := clamp i
  let b := clamp j
  let lo := min a b
  let hi := max a b
  (s.drop lo).take (hi - lo)

/-- JavaScript `substring(i)` to the end of the string. -/
def jsSubstringFrom (s : Chars) (i : Nat) : Chars := s.drop i

/-- JavaScript `String.prototype.split` on a non-empty separator
substring; `go` keeps the reversed current piece. -/
def splitOnSubGo (sep : Chars) : Nat → Chars → Chars → List Chars
  | 0, cur, s => [cur.reverse ++ s]
  | fuel + 1, cur, s =>
    if sep ≠ [] && leadsWith s sep then
      cur.reverse :: splitOnSubGo sep fuel [] (s.drop sep.length)
    else match s with
      | [] => [cur.reverse]
      | c :: t => splitOnSubGo sep fuel (c :: cur) t

def splitOnSub (s sep : Chars) : List Chars :=
  splitOnSubGo sep (s.length + 1) [] s

/-- Join character lists with a separator (used by the formatter and by
JavaScript array-to-string conversion). -/
def joinWith (sep : Chars) : List Chars → Chars
  | [] => []
  | [x] => x
  | x :: y :: t => x ++ sep ++ joinWith sep (y :: t)

/-- ASCII character classes used by the source's regular expressions. -/
def isAsciiDigit (c : Char) : Bool := '0' ≤ c && c ≤ '9'

def isAsciiAlpha (c : Char) : Bool :=
  ('a' ≤ c && c ≤ 'z') || ('A' ≤ c && c ≤ 'Z')

def isIdentStart (c : Char) : Bool := isAsciiAlpha c || c = '_'

def isIdentRest (c : Char) : Bool := isIdentStart c || isAsciiDigit c

/-- Test for the regex `^[a-zA-Z_][a-zA-Z0-9_]*$`. -/
def isIdentChars : Chars → Bool
  | [] => false
  | c :: t => isIdentStart c && t.all isIdentRest

/-- Numeric value of a digit character. -/
def digitVal (c : Char) : Nat := c.toNat - '0'.toNat

def digitsToNat (s : Chars) : Nat :=
  s.foldl (fun acc c => acc * 10 + digitVal c) 0

/-- An exact fraction of integers with positive denominator, modelling a
finite JavaScript number.  The fraction is not kept in lowest terms;
equality and order are defined by cross multiplication.  Double
rounding is not modelled: every concrete computation in the theorems
below stays in the range where double arithmetic is exact. -/
structure JRat where
  n : Int
  d : Int
deriving DecidableEq

/-- Build a fraction, normalising the sign of the denominator (callers
never pass a zero denominator). -/
def jqMk (n d : Int) : JRat := if d < 0 then ⟨-n, -d⟩ else ⟨n, d⟩

def jqOfInt (i : Int) : JRat := ⟨i, 1⟩

def jqAdd (a b : JRat) : JRat := ⟨a.n * b.d + b.n * a.d, a.d * b.d⟩

def jqNeg (a : JRat) : JRat := ⟨-a.n, a.d⟩

def jqSub (a b : JRat) : JRat := jqAdd a (jqNeg b)

def jqMul (a b : JRat) : JRat := ⟨a.n * b.n, a.d * b.d⟩

/-- Fraction division; callers guarantee `b` is non-zero. -/
def jqDiv (a b : JRat) : JRat := jqMk (a.n * b.d) (a.d * b.n)

def jqIsZero (a : JRat) : Bool := a.n = 0

def jqIsNeg (a : JRat) : Bool := a.n < 0

def jqEqv (a b : JRat) : Bool := a.n * b.d = b.n * a.d

def jqLt (a b : JRat) : Bool := a.n * b.d < b.n * a.d

def jqLe (a b : JRat) : Bool := a.n * b.d ≤ b.n * a.d

def jqFloor (a : JRat) : Int := Int.fdiv a.n a.d

/-- Truncation toward zero (JavaScript ToIntegerOrInfinity on a finite
number). -/
def jqTrunc (a : JRat) : Int := Int.tdiv a.n a.d

/-- A JavaScript number: a finite value or one of the special values. -/
inductive JNum where
  | fin (q : JRat)
  | nan
  | inf
  | ninf
deriving DecidableEq

def jnOfNat (k : Nat) : JNum := .fin (jqOfInt k)

def jnNeg : JNum → JNum
  | .fin q => .fin (jqNeg q)
  | .nan => .nan
  | .inf => .ninf
  | .ninf => .inf

def jnAdd : JNum → JNum → JNum
  | .nan, _ => .nan
  | _, .nan => .nan
  | .inf, .ninf => .nan
  | .ninf, .inf => .nan
  | .inf, _ => .inf
  | _, .inf => .inf
  | .ninf, _ => .ninf
  | _, .ninf => .ninf
  | .fin a, .fin b => .fin (jqAdd a b)

def jnSub (a b : JNum) : JNum := jnAdd a (jnNeg b)

def jnMul : JNum → JNum → JNum
  | .nan, _ => .nan
  | _, .nan => .nan
  | .fin a, .fin b => .fin (jqMul a b)
  | .inf, .inf => .inf
  | .inf, .ninf => .ninf
  | .ninf, .inf => .ninf
  | .ninf, .ninf => .inf
  | .inf, .fin q => if jqIsZero q then .nan else if jqIsNeg q then .ninf else .inf
  | .fin q, .inf => if jqIsZero q then .nan else if jqIsNeg q then .ninf else .inf
  | .ninf, .fin q => if jqIsZero q then .nan else if jqIsNeg q then .inf else .ninf
  | .fin q, .ninf => if jqIsZero q then .nan else if jqIsNeg q then .inf else .ninf

/-- JavaScript division, including by zero (`-0` is identified with `0`,
so `x / 0` with `x > 0` gives `Infinity`). -/
def jnDiv : JNum → JNum → JNum
  | .nan, _ => .nan
  | _, .nan => .nan
  | .inf, .inf => .nan
  | .inf, .ninf => .nan
  | .ninf, .inf => .nan
  | .ninf, .ninf => .nan
  | .fin _, .inf => .fin (jqOfInt 0)
  | .fin _, .ninf => .fin (jqOfInt 0)
  | .inf, .fin q => if jqIsNeg q then .ninf else .inf
  | .ninf, .fin q => if jqIsNeg q then .inf else .ninf
  | .fin a, .fin b =>
    if jqIsZero b then
      if jqIsZero a then .nan else if jqIsNeg a then .ninf else .inf
    else .fin (jqDiv a b)

def jnLt : JNum → JNum → Bool
  | .nan, _ => false
  | _, .nan => false
  | .fin a, .fin b => jqLt a b
  | .ninf, .ninf => false
  | .ninf, _ => true
  | _, .ninf => false
  | .inf, _ => false
  | .fin _, .inf => true

def jnLe : JNum → JNum → Bool
  | .nan, _ => false
  | _, .nan => false
  | .fin a, .fin b => jqLe a b
  | .ninf, _ => true
  | _, .ninf => false
  | _, .inf => true
  | .inf, .fin _ => false

def jnGt (a b : JNum) : Bool := jnLt b a

def jnGe (a b : JNum) : Bool := jnLe b a

/-- JavaScript `===` (and `==` between two numbers); `NaN` is not equal
to itself. -/
def jnEqv : JNum → JNum → Bool
  | .fin a, .fin b => jqEqv a b
  | .inf, .inf => true
  | .ninf, .ninf => true
  | _, _ => false

def jnIsZero : JNum → Bool
  | .fin q => jqIsZero q
  | _ => false

def jnTruthy : JNum → Bool
  | .fin q => !jqIsZero q
  | .nan => false
  | _ => true

/-- Decimal digits of a natural number. -/
def natToChars (k : Nat) : Chars := Nat.toDigits 10 k

def intToChars (i : Int) : Chars :=
  if i < 0 then '-' :: natToChars i.natAbs else natToChars i.natAbs

/-- Digits after the decimal point of a fraction `0 ≤ a < 1`.  For a
fraction with a finite decimal expansion this is exact and matches the
shortest round-trip printing JavaScript uses; expansions longer than
the fuel are truncated (no value printed in a theorem below has a
non-terminating expansion). -/
def fracDigits : Nat → JRat → Chars
  | 0, _ => []
  | fuel + 1, a =>
    if jqIsZero a then []
    else
      let a10 : JRat := jqMul a (jqOfInt 10)
      let dig : Int := jqFloor a10
      let rest : JRat := jqSub a10 (jqOfInt dig)
      Char.ofNat ('0'.toNat + dig.toNat) :: fracDigits fuel rest

/-- JavaScript `String(n)` for a number. -/
def jnToChars : JNum → Chars
  | .nan => cs "NaN"
  | .inf => cs "Infinity"
  | .ninf => cs "-Infinity"
  | .fin q =>
    let sign : Chars := if jqIsNeg q then ['-'] else []
    let aq : JRat := if jqIsNeg q then jqNeg q else q
    let ip : Int := jqFloor aq
    let fp : JRat := jqSub aq (jqOfInt ip)
    if jqIsZero fp then sign ++ intToChars ip
    else sign ++ intToChars ip ++ ['.'] ++ fracDigits 20 fp

/-- Longest-prefix decimal parse used by JavaScript `parseFloat`
(optional sign, digits with an optional fractional part, an optional
exponent).  Returns `none` when no number can be parsed (`NaN`).
`Infinity` and hexadecimal forms are not modelled; no input below uses
them. -/
def parseFloatJS (s0 : Chars) : Option JRat :=
  let s1 := dropWs s0
  let (neg, s2) : Bool × Chars :=
    match s1 with
    | '-' :: t => (true, t)
    | '+' :: t => (false, t)
    | _ => (false, s1)
  let intDigits := s2.takeWhile isAsciiDigit
  let s3 := s2.drop intDigits.length
  let (fracPart, s4) : Chars × Chars :=
    match s3 with
    | '.' :: t => (t.takeWhile isAsciiDigit, (t.drop (t.takeWhile isAsciiDigit).length))
    | _ => ([], s3)
  if intDigits = [] && fracPart = [] then none
  else
    let mantissa : JRat :=
      jqMk (Int.ofNat (digitsToNat (intDigits ++ fracPart))) (Int.ofNat (10 ^ fracPart.length))
    let expVal : Int :=
      match s4 with
      | 'e' :: t => parseExpDigits t
      | 'E' :: t => parseExpDigits t
      | _ => 0
    let scaled : JRat :=
      if expVal ≥ 0 then jqMul mantissa (jqOfInt (10 ^ expVal.toNat))
      else jqDiv mantissa (jqOfInt (10 ^ (-expVal).toNat))
    some (if neg then jqNeg scaled else scaled)
where
  /-- Exponent part of `parseFloat`; an ill-formed exponent contributes
  nothing (as in JavaScript, where it is simply not consumed). -/
  parseExpDigits (t : Chars) : Int :=
    let (eneg, t2) : Bool × Chars :=
      match t with
      | '-' :: r => (true, r)
      | '+' :: r => (false, r)
      | _ => (false, t)
    let ds := t2.takeWhile isAsciiDigit
    if ds = [] then 0
    else if eneg then -(Int.ofNat (digitsToNat ds)) else Int.ofNat (digitsToNat ds)

/-- JavaScript `Number(string)` coercion: trims, the empty string is `0`,
otherwise the whole string must be a decimal number (with optional
sign), else `NaN`.  `Infinity`, hex, binary and octal literals are not
modelled; no input below uses them. -/
def numberFromChars (s0 : Chars) : JNum :=
  let s := trimJS s0
  if s = [] then .fin (jqOfInt 0)
  else
    let (neg, s2) : Bool × Chars :=
      match s with
      | '-' :: t => (true, t)
      | '+' :: t => (false, t)
      | _ => (false, s)
    let intDigits := s2.takeWhile isAsciiDigit
    let s3 := s2.drop intDigits.length
    let (fracPart, s4) : Chars × Chars :=
      match s3 with
      | '.' :: t => (t.takeWhile isAsciiDigit, t.drop (t.takeWhile isAsciiDigit).length)
      | _ => ([], s3)
    if intDigits = [] && fracPart = [] then .nan
    else
      let q : JRat :=
        jqMk (Int.ofNat (digitsToNat (intDigits ++ fracPart))) (Int.ofNat (10 ^ fracPart.length))
      let signed : JRat := if neg then jqNeg q else q
      match s4 with
      | [] => .fin signed
      | 'e' :: t => scaleByExp signed t
      | 'E' :: t => scaleByExp signed t
      | _ => .nan
where
  /-- Exponent part of `Number(string)`: unlike `parseFloat` the whole
  remainder must be consumed, else the result is `NaN`. -/
  scaleByExp (q : JRat) (t : Chars) : JNum :=
    let (eneg, t2) : Bool × Chars :=
      match t with
      | '-' :: r => (true, r)
      | '+' :: r => (false, r)
      | _ => (false, t)
    let ds := t2.takeWhile isAsciiDigit
    if ds = [] || t2.drop ds.length ≠ [] then .nan
    else if eneg then .fin (jqDiv q (jqOfInt (10 ^ digitsToNat ds)))
    else .fin (jqMul q (jqOfInt (10 ^ digitsToNat ds)))

/-- A run-time value of the evaluator.  `predObj` is the
`\x7b'@predicate': ...\x7d` object built by `_parseArguments` for a
collection-style argument list reaching a non-collection function. -/
inductive Value where
  | num (x : JNum)
  | str (s : Chars)
  | bool (b : Bool)
  | arr (elems : List Value)
  | predObj (body : Chars)

/-- JavaScript truthiness of a value (an array is truthy even when
empty). -/
def truthy : Value → Bool
  | .num x => jnTruthy x
  | .str s => s ≠ []
  | .bool b => b
  | .arr _ => true
  | .predObj _ => true

mutual

/-- JavaScript `String(value)` (an array stringifies as its elements
joined with commas). -/
def toStringV : Value → Chars
  | .num x => jnToChars x
  | .str s => s
  | .bool b => if b then cs "true" else cs "false"
  | .arr es => arrJoinChars es
  | .predObj _ => cs "[object Object]"

def arrJoinChars : List Value → Chars
  | [] => []
  | [v] => toStringV v
  | v :: w :: t => toStringV v ++ ',' :: arrJoinChars (w :: t)

end

/-- JavaScript ToPrimitive with the default hint: arrays and objects
become their string form, primitives are unchanged. -/
def toPrimV : Value → Value
  | .arr es => .str (arrJoinChars es)
  | .predObj b => .str (toStringV (.predObj b))
  | v => v

/-- ToNumber on a primitive value. -/
def primToNum : Value → JNum
  | .num x => x
  | .str s => numberFromChars s
  | .bool b => if b then jnOfNat 1 else jnOfNat 0
  | _ => .nan

/-- JavaScript ToNumber of any value. -/
def toNumberV (v : Value) : JNum := primToNum (toPrimV v)

/-- JavaScript `===`.  Two arrays (or two predicate objects) are equal
only when they are the same object reference; distinct evaluations in
this interpreter always build distinct references, so the embedding
returns `false` for them.  (The same-reference case, such as comparing
one variable with itself, is not exercised by any theorem below.) -/
def jsStrictEq : Value → Value → Bool
  | .num a, .num b => jnEqv a b
  | .str a, .str b => a = b
  | .bool a, .bool b => a = b
  | _, _ => false

def charsLexLt : Chars → Chars → Bool
  | [], [] => false
  | [], _ :: _ => true
  | _ :: _, [] => false
  | a :: s, b :: t => if a = b then charsLexLt s t else decide (a < b)

/-- JavaScript `+`: string concatenation when either primitive operand
is a string, numeric addition otherwise. -/
def jsAddV (a b : Value) : Value :=
  let pa := toPrimV a
  let pb := toPrimV b
  match pa, pb with
  | .str x, _ => .str (x ++ toStringV pb)
  | _, .str y => .str (toStringV pa ++ y)
  | _, _ => .num (jnAdd (primToNum pa) (primToNum pb))

def jsSubV (a b : Value) : Value := .num (jnSub (toNumberV a) (toNumberV b))

def jsMulV (a b : Value) : Value := .num (jnMul (toNumberV a) (toNumberV b))

def jsDivV (a b : Value) : Value := .num (jnDiv (toNumberV a) (toNumberV b))

/-- JavaScript relational comparison: both operands are taken to
primitives; two strings compare lexicographically, anything else
numerically (`false` whenever `NaN` appears). -/
def jsLtV (a b : Value) : Bool :=
  match toPrimV a, toPrimV b with
  | .str x, .str y => charsLexLt x y
  | pa, pb => jnLt (primToNum pa) (primToNum pb)

def jsGtV (a b : Value) : Bool := jsLtV b a

def jsLeV (a b : Value) : Bool :=
  match toPrimV a, toPrimV b with
  | .str x, .str y => !charsLexLt y x
  | pa, pb => jnLe (primToNum pa) (primToNum pb)

def jsGeV (a b : Value) : Bool := jsLeV b a

/-- JavaScript `==` between an arbitrary value and a number (the shape
used by the `@it` comparison regexes): the value is coerced to a
number. -/
def jsLooseEqNum (v : Value) (q : JRat) : Bool := jnEqv (toNumberV v) (.fin q)

/-- Is a value strictly equal to the number literal `0` (the division
guard `rightValue === 0`)? -/
def isNumZero : Value → Bool
  | .num x => jnIsZero x
  | _ => false

/-- SameValueZero, used by `Array.prototype.includes` (like `===` but
`NaN` matches `NaN`). -/
def sameValueZero : Value → Value → Bool
  | .num .nan, .num .nan => true
  | a, b => jsStrictEq a b

/-- The session environment `this.environment`: an insertion-ordered
object with one binding per name.  (JavaScript `in` would also see
inherited prototype properties such as `toString`; that corner is not
modelled and no input below names one.) -/
abbrev Env := List (Chars × Value)

def envHas : Env → Chars → Bool
  | [], _ => false
  | (k, _) :: rest, key => k = key || envHas rest key

def envGet : Env → Chars → Option Value
  | [], _ => none
  | (k, v) :: rest, key => if k = key then some v else envGet rest key

def envSet : Env → Chars → Value → Env
  | [], key, v => [(key, v)]
  | (k, w) :: rest, key, v =>
    if k = key then (k, v) :: rest else (k, w) :: envSet rest key v

def envDelete : Env → Chars → Env
  | [], _ => []
  | (k, w) :: rest, key => if k = key then rest else (k, w) :: envDelete rest key

/-- Result of running a piece of the evaluator: a value or a thrown
error message, together with the environment as mutated so far. -/
inductive ERes (α : Type) where
  | ok (a : α) (env : Env)
  | err (msg : Chars) (env : Env)

/-- The evaluator's effect: state (the mutable environment) plus thrown
errors that keep the mutations already performed. -/
def EvalM (α : Type) : Type := Env → ERes α

instance : Monad EvalM where
  pure a := fun env => .ok a env
  bind m f := fun env =>
    match m env with
    | .ok a env1 => f a env1
    | .err msg env1 => .err msg env1

def throwE {α : Type} (msg : Chars) : EvalM α := fun env => .err msg env

def getTheEnv : EvalM Env := fun env => .ok env env

def modifyTheEnv (f : Env → Env) : EvalM Unit := fun env => .ok () (f env)

mutual

/-- The method `_formatValue`: render a value for display.  The source's
`undefined` and `null` branches are unreachable here because the
embedding's values are always one of the five kinds below; a number or
a predicate object falls to the source's `String(value)` branch. -/
def formatValue : Value → Chars
  | .bool b => if b then cs "True" else cs "False"
  | .str s => '"' :: (s ++ ['"'])
  | .arr es => '[' :: (formatValueItems es ++ [']'])
  | .num x => jnToChars x
  | .predObj _ => cs "[object Object]"

def formatValueItems : List Value → Chars
  | [] => []
  | [v] => formatValue v
  | v :: w :: t => formatValue v ++ cs ", " ++ formatValueItems (w :: t)

end

/-- Consume a literal from the front of the input, or fail. -/
def eatLit (lit s : Chars) : Option Chars :=
  if leadsWith s lit then some (s.drop lit.length) else none

/-- Consume an identifier (regex `[a-zA-Z_][a-zA-Z0-9_]*`), greedily. -/
def eatIdent : Chars → Option (Chars × Chars)
  | [] => none
  | c :: t =>
    if isIdentStart c then
      let rest := t.takeWhile isIdentRest
      some (c :: rest, t.drop rest.length)
    else none

/-- The regex `^Q[^Q]*Q\s*==\s*Q[^Q]*Q$` for a quote character `Q`
(the special-cased string comparison at the top of `evaluate`). -/
def matchStrEqCase (q : Char) (s : Chars) : Bool :=
  (do
    let s1 ← eatLit [q] s
    let s2 := s1.dropWhile (fun d => d ≠ q)
    let s3 ← eatLit [q] s2
    let s4 := s3.dropWhile isWsChar
    let s5 ← eatLit (cs "==") s4
    let s6 := s5.dropWhile isWsChar
    let s7 ← eatLit [q] s6
    let s8 := s7.dropWhile (fun d => d ≠ q)
    let s9 ← eatLit [q] s8
    if s9 = [] then some () else none).isSome

/-- Consume the alternation `(filter|all|any)`, returning the name. -/
def eatCollName (s : Chars) : Option (Chars × Chars) :=
  if leadsWith s (cs "filter") then some (cs "filter", s.drop 6)
  else if leadsWith s (cs "all") then some (cs "all", s.drop 3)
  else if leadsWith s (cs "any") then some (cs "any", s.drop 3)
  else none

/-- The gating regex
`^(filter|all|any)\s*\(\s*[a-zA-Z_][a-zA-Z0-9_]*\s*,\s*\x7b@it`
(a prefix match: anything may follow). -/
def matchCollFastPre (s : Chars) : Bool :=
  (do
    let (_, s1) ← eatCollName s
    let s2 := s1.dropWhile isWsChar
    let s3 ← eatLit ['('] s2
    let s4 := s3.dropWhile isWsChar
    let (_, s5) ← eatIdent s4
    let s6 := s5.dropWhile isWsChar
    let s7 ← eatLit [','] s6
    let s8 := s7.dropWhile isWsChar
    let _ ← eatLit (cs "\x7b@it") s8
    some ()).isSome

/-- The capturing regex
`^(filter|all|any)\s*\(\s*([a-zA-Z_][a-zA-Z0-9_]*)\s*,\s*\x7b(.+)\x7d\)$`;
the greedy `(.+)` together with the anchors makes the predicate the text
between the first opening brace and the final `\x7d)`, and `.` excludes
line terminators. -/
def matchCollFastFull (s : Chars) : Option (Chars × Chars × Chars) := do
  let (fname, s1) ← eatCollName s
  let s2 := s1.dropWhile isWsChar
  let s3 ← eatLit ['('] s2
  let s4 := s3.dropWhile isWsChar
  let (ident, s5) ← eatIdent s4
  let s6 := s5.dropWhile isWsChar
  let s7 ← eatLit [','] s6
  let s8 := s7.dropWhile isWsChar
  let r ← eatLit ['\x7b'] s8
  if r.length < 3 then none
  else if ¬ endsWithJS r (cs "\x7d)") then none
  else
    let pred := r.take (r.length - 2)
    if pred.any (fun c => c = '\n' || c = '\x0d') then none
    else some (fname, ident, pred)

/-- Operators appearing in the `@it` comparison regexes, in the order
the source tries them. -/
def itCmpOps : List Chars :=
  [cs ">", cs "<", cs ">=", cs "<=", cs "==", cs "!="]

/-- One regex `^@it\s*OP\s*(\d+)$`; the captured digits go through
`parseFloat`, which on a digit string is its numeric value. -/
def tryItOp (op s : Chars) : Option JRat :=
  (do
    let s1 ← eatLit (cs "@it") s
    let s2 := s1.dropWhile isWsChar
    let s3 ← eatLit op s2
    let s4 := s3.dropWhile isWsChar
    let ds := s4.takeWhile isAsciiDigit
    if ds = [] then none
    else if s4.drop ds.length ≠ [] then none
    else some (jqOfInt (digitsToNat ds)))

/-- Try the six `@it` comparison regexes in source order, returning the
operator that matched and the numeric literal. -/
def matchItCmp (s : Chars) : Option (Chars × JRat) :=
  match tryItOp (cs ">") s with
  | some q => some (cs ">", q)
  | none =>
  match tryItOp (cs "<") s with
  | some q => some (cs "<", q)
  | none =>
  match tryItOp (cs ">=") s with
  | some q => some (cs ">=", q)
  | none =>
  match tryItOp (cs "<=") s with
  | some q => some (cs "<=", q)
  | none =>
  match tryItOp (cs "==") s with
  | some q => some (cs "==", q)
  | none =>
  match tryItOp (cs "!=") s with
  | some q => some (cs "!=", q)
  | none => none

/-- Comparison performed by the matched `@it` regex branch. -/
def applyItCmp (op : Chars) (itValue : Value) (q : JRat) : Bool :=
  if op = cs ">" then jsGtV itValue (.num (.fin q))
  else if op = cs "<" then jsLtV itValue (.num (.fin q))
  else if op = cs ">=" then jsGeV itValue (.num (.fin q))
  else if op = cs "<=" then jsLeV itValue (.num (.fin q))
  else if op = cs "==" then jsLooseEqNum itValue q
  else !jsLooseEqNum itValue q

def isArithOpChar (c : Char) : Bool :=
  c = '*' || c = '/' || c = '+' || c = '-'

/-- Does `\s*.+$` match `r` (the tail of the parenthesised-arithmetic
regex)?  `\s*` may absorb line terminators but `.` may not, so `r`
must have a non-empty suffix free of line terminators preceded only by
whitespace. -/
def matchesWsDotPlus (r : Chars) : Bool :=
  match lastIndexOfChar r '\n', lastIndexOfChar r '\x0d' with
  | none, none => r ≠ []
  | a, b =>
    let k := max (a.getD 0) (b.getD 0)
    (r.take (k + 1)).all isWsChar && r.drop (k + 1) ≠ []

/-- The gating regex `^\([^()]+\)\s*[\*\/\+\-]\s*.+$` for expressions
like `(2 + 3) * 4`. -/
def matchParenArith (s : Chars) : Bool :=
  (do
    let s1 ← eatLit ['('] s
    let inner := s1.takeWhile (fun c => c ≠ '(' && c ≠ ')')
    if inner = [] then none
    else do
      let s2 ← eatLit [')'] (s1.drop inner.length)
      let s3 := s2.dropWhile isWsChar
      match s3 with
      | c :: s4 =>
        if isArithOpChar c then
          if matchesWsDotPlus s4 then some () else none
        else none
      | [] => none).isSome

/-- The regex `^(\([^()]+\))\s*(\&\&|\|\|)\s*(\([^()]+\))$` for
expressions like `(5 > 3) && (2 < 4)`, returning the three captures. -/
def matchParenLogical (s : Chars) : Option (Chars × Chars × Chars) := do
  let s1 ← eatLit ['('] s
  let inner1 := s1.takeWhile (fun c => c ≠ '(' && c ≠ ')')
  if inner1 = [] then none
  else do
    let s2 ← eatLit [')'] (s1.drop inner1.length)
    let s3 := s2.dropWhile isWsChar
    let (op, s4) ←
      match eatLit (cs "&&") s3 with
      | some r => some (cs "&&", r)
      | none =>
        match eatLit (cs "||") s3 with
        | some r => some (cs "||", r)
        | none => none
    let s5 := s4.dropWhile isWsChar
    let s6 ← eatLit ['('] s5
    let inner2 := s6.takeWhile (fun c => c ≠ '(' && c ≠ ')')
    if inner2 = [] then none
    else do
      let s7 ← eatLit [')'] (s6.drop inner2.length)
      if s7 = [] then
        some ('(' :: (inner1 ++ [')']), op, '(' :: (inner2 ++ [')']))
      else none

/-- The regex `^([a-zA-Z_][a-zA-Z0-9_]*)\[(\d+)\]$` for array access;
the captured digits go through `parseInt`. -/
def matchArrayAccess (s : Chars) : Option (Chars × Nat) := do
  let (ident, s1) ← eatIdent s
  let s2 ← eatLit ['['] s1
  let ds := s2.takeWhile isAsciiDigit
  if ds = [] then none
  else do
    let s3 ← eatLit [']'] (s2.drop ds.length)
    if s3 = [] then some (ident, digitsToNat ds) else none

/-- One step of the character scan shared by `_splitExpression`,
`_evaluateFunctionCall` and `_parseArguments`: update the in-string
flag, the current quote character and the parenthesis depth exactly as
the source's loop body does (the quote toggle looks at the previous
character to skip escaped quotes; the depth is only tracked outside
strings, using the already-updated in-string flag). -/
def scanStep (c : Char) (prev : Option Char) (inString : Bool)
    (stringChar : Char) (depth : Int) : Bool × Char × Int :=
  let isQuote := (c = '"' || c = '\x27') && prev ≠ some '\\'
  let (inString2, stringChar2) :=
    if isQuote then
      if !inString then (true, c)
      else if c = stringChar then (false, stringChar)
      else (inString, stringChar)
    else (inString, stringChar)
  let depth2 : Int :=
    if !inString2 then
      if c = '(' then depth + 1
      else if c = ')' then depth - 1
      else depth
    else depth
  (inString2, stringChar2, depth2)

/-- The scanning loop of `_splitExpression`: find the first occurrence
of the operator outside strings and at parenthesis depth zero, and
split there. -/
def splitScan (op : Chars) : Chars → Chars → Bool → Char → Int → Option Char →
    Option (Chars × Chars)
  | accRev, s, inString, stringChar, depth, prev =>
    match s with
    | [] => none
    | c :: rest =>
      let (inString2, stringChar2, depth2) := scanStep c prev inString stringChar depth
      if !inString2 && depth2 = 0 && leadsWith (c :: rest) op then
        some (trimJS accRev.reverse, trimJS ((c :: rest).drop op.length))
      else
        splitScan op (c :: accRev) rest inString2 stringChar2 depth2 (some c)

/-- The method `_splitExpression`. -/
def splitExpression (expr op : Chars) : Except Chars (Chars × Chars) :=
  -- special pre-step for '*' on expressions containing parentheses
  let special : Option (Chars × Chars) :=
    if op = ['*'] && containsSub expr ['('] && containsSub expr [')'] then
      match lastIndexOfChar expr ')' with
      | some cp =>
        match indexOfCharFrom expr '*' cp with
        | some mi =>
          if mi > 0 then
            some (trimJS (expr.take mi), trimJS (expr.drop (mi + 1)))
          else none
        | none => none
      | none => none
    else none
  match special with
  | some r => .ok r
  | none =>
    match splitScan op [] expr false ' ' 0 none with
    | some r => .ok r
    | none =>
      -- fallback for logical operators: a plain split
      if op = cs "&&" || op = cs "||" then
        match splitOnSub expr op with
        | [p0, p1] => .ok (trimJS p0, trimJS p1)
        | _ =>
          .error (cs "Operator \x27" ++ op ++ cs "\x27 not found in expression: " ++ expr)
      else
        .error (cs "Operator \x27" ++ op ++ cs "\x27 not found in expression: " ++ expr)

/-- The closing-parenthesis search of `_evaluateFunctionCall`: scan from
just after the opening parenthesis, skipping strings and nested
parentheses; when no closing parenthesis is found the source defaults
to the last index of the string. -/
def findCloseParenGo : Chars → Nat → Bool → Char → Int → Option Char → Nat → Nat
  | [], _, _, _, _, _, deflt => deflt
  | c :: rest, i, inString, stringChar, depth, prev, deflt =>
    let isQuote := (c = '"' || c = '\x27') && prev ≠ some '\\'
    let (inString2, stringChar2) :=
      if isQuote then
        if !inString then (true, c)
        else if c = stringChar then (false, stringChar)
        else (inString, stringChar)
      else (inString, stringChar)
    if !inString2 && c = '(' then
      findCloseParenGo rest (i + 1) inString2 stringChar2 (depth + 1) (some c) deflt
    else if !inString2 && c = ')' then
      if depth = 0 then i
      else findCloseParenGo rest (i + 1) inString2 stringChar2 (depth - 1) (some c) deflt
    else
      findCloseParenGo rest (i + 1) inString2 stringChar2 depth (some c) deflt

def findCloseParen (expr : Chars) (openIdx : Nat) : Nat :=
  findCloseParenGo (expr.drop (openIdx + 1)) (openIdx + 1) false ' ' 0
    (some '(') (expr.length - 1)

/-- An atom of the small regular-expression subset modelled for the
`matches` builtin: a literal character, `.`, or the end anchor. -/
inductive RAtom where
  | lit (c : Char)
  | dot
  | eol

/-- Quantifier attached to an atom. -/
inductive RQuant where
  | one
  | star
  | plus

def ratomMatches : RAtom → Char → Bool
  | .lit d, c => c = d
  | .dot, c => c ≠ '\n' && c ≠ '\x0d'
  | .eol, _ => false

/-- Parse a pattern into quantified atoms.  Only `^ $ . * +` are given
their regex meaning; other metacharacters are kept as literals.  This
covers every pattern in the repository; the `matches` builtin is not
the subject of any claim. -/
def rparse : Chars → List (RAtom × RQuant)
  | [] => []
  | ['$'] => [(.eol, .one)]
  | [c] => [(if c = '.' then RAtom.dot else RAtom.lit c, RQuant.one)]
  | c :: d :: rest =>
    let atom : RAtom := if c = '.' then .dot else .lit c
    if d = '*' then (atom, .star) :: rparse rest
    else if d = '+' then (atom, .plus) :: rparse rest
    else (atom, .one) :: rparse (d :: rest)

/-- Backtracking matcher over the parsed pattern (fuelled; the fuel
supplied by `regexTestJS` is ample for every input considered). -/
def rmatch : Nat → List (RAtom × RQuant) → Chars → Bool
  | 0, _, _ => false
  | _ + 1, [], _ => true
  | fuel + 1, (atom, q) :: rest, s =>
    match atom, q with
    | .eol, _ => s = [] && rmatch fuel rest s
    | _, .one =>
      match s with
      | [] => false
      | c :: t => ratomMatches atom c && rmatch fuel rest t
    | _, .star =>
      rmatch fuel rest s ||
        (match s with
         | [] => false
         | c :: t => ratomMatches atom c && rmatch fuel ((atom, .star) :: rest) t)
    | _, .plus =>
      match s with
      | [] => false
      | c :: t => ratomMatches atom c && rmatch fuel ((atom, .star) :: rest) t

/-- JavaScript `new RegExp(pat).test(s)` for the modelled subset: an
unanchored pattern may match at any position. -/
def regexTestJS (pat s : Chars) : Bool :=
  let anchored := leadsWith pat ['^']
  let body := if anchored then pat.drop 1 else pat
  let items := rparse body
  let fuel := (s.length + 1) * (pat.length + 2) + 16
  if anchored then rmatch fuel items s
  else tryAt items fuel s
where
  tryAt (items : List (RAtom × RQuant)) (fuel : Nat) : Chars → Bool
    | [] => rmatch fuel items []
    | c :: t => rmatch fuel items (c :: t) || tryAt items fuel t

/-- ToIntegerOrInfinity as used by `String.prototype.substring` on its
numeric arguments (clamping to the string range happens inside
`jsSubstring`). -/
def jnToIdx (len : Nat) : JNum → Int
  | .fin q => jqTrunc q
  | .nan => 0
  | .inf => Int.ofNat len
  | .ninf => -1

/-- The `switch (functionName)` of `_evaluateFunctionCall`: the built-in
(non-collection) functions. -/
def builtinSwitch (functionName : Chars) (args : List Value) : EvalM Value :=
  if functionName = cs "len" then
    match args with
    | [.str s] => pure (.num (jnOfNat s.length))
    | [.arr es] => pure (.num (jnOfNat es.length))
    | [_] => throwE (cs "len() argument must be a string or array")
    | _ => throwE (cs "len() requires exactly one argument")
  else if functionName = cs "contains" then
    match args with
    | [.str a, .str b] => pure (.bool (containsSub a b))
    | [.arr es, b] => pure (.bool (es.any (fun e => sameValueZero e b)))
    | [_, _] => throwE (cs "contains() first argument must be a string or array")
    | _ => throwE (cs "contains() requires exactly two arguments")
  else if functionName = cs "startsWith" then
    match args with
    | [.str a, .str b] => pure (.bool (leadsWith a b))
    | [_, _] => throwE (cs "startsWith() arguments must be strings")
    | _ => throwE (cs "startsWith() requires exactly two arguments")
  else if functionName = cs "endsWith" then
    match args with
    | [.str a, .str b] => pure (.bool (endsWithJS a b))
    | [_, _] => throwE (cs "endsWith() arguments must be strings")
    | _ => throwE (cs "endsWith() requires exactly two arguments")
  else if functionName = cs "substring" then
    match args with
    | [.str a, .num x, .num y] =>
      pure (.str (jsSubstring a (jnToIdx a.length x) (jnToIdx a.length y)))
    | [_, _, _] => throwE (cs "substring() invalid arguments")
    | _ => throwE (cs "substring() requires exactly three arguments")
  else if functionName = cs "isEmpty" then
    match args with
    | [.str s] => pure (.bool (s.length = 0))
    | [.arr es] => pure (.bool (es.length = 0))
    | [_] => throwE (cs "isEmpty() argument must be a string or array")
    | _ => throwE (cs "isEmpty() requires exactly one argument")
  else if functionName = cs "matches" then
    match args with
    | [.str a, .str pat] => pure (.bool (regexTestJS pat a))
    | [_, _] => throwE (cs "matches() arguments must be strings")
    | _ => throwE (cs "matches() requires exactly two arguments")
  else
    throwE (cs "Unknown function: " ++ functionName)

/-- Error text for `@it` outside a predicate. -/
def itOnlyMsg : Chars :=
  cs "Variable @it is only available within collection function predicates"

/-- Error used when the recursion fuel runs out.  The top-level entry
point supplies fuel exceeding the recursion depth of any input, so
this branch is unreachable there. -/
def fuelMsg : Chars := cs "evaluator fuel exhausted"

mutual

/-- The method `_evaluateExpression`, first part: the empty check, the
`@it` handling and the boolean literals; the remaining branches are in
`evaluateExpressionRest` and its successors (one Lean function per
fall-through region of the source's if-chain). -/
def evaluateExpression : Nat → Chars → EvalM Value
  | 0, _ => throwE fuelMsg
  | fuel + 1, expr0 =>
    let expr := trimJS expr0
    if expr = [] then throwE (cs "Empty expression")
    else if expr = cs "@it" then
      fun env =>
        match envGet env (cs "@it") with
        | some v => .ok v env
        | none => .err itOnlyMsg env
    else if containsSub expr (cs "@it") then
      fun env =>
        if envHas env (cs "@it") then
          match envGet env (cs "@it"), matchItCmp expr with
          | some itValue, some (op, q) => .ok (.bool (applyItCmp op itValue q)) env
          | _, _ => evaluateExpressionRest fuel expr env
        else .err itOnlyMsg env
    else evaluateExpressionRest fuel expr

/-- `_evaluateExpression`, boolean literals and the special cases for
expressions containing parentheses. -/
def evaluateExpressionRest : Nat → Chars → EvalM Value
  | 0, _ => throwE fuelMsg
  | fuel + 1, expr =>
    if expr = cs "true" || expr = cs "True" then pure (.bool true)
    else if expr = cs "false" || expr = cs "False" then pure (.bool false)
    else if containsSub expr ['('] && containsSub expr [')'] then
      -- `(2 + 3) * 4`-style expressions, located by index arithmetic
      let arith? : Option (Nat × Nat × Char) :=
        if matchParenArith expr then
          match indexOfChar expr ')' with
          | some cp =>
            let suffix := expr.drop cp
            match suffix.findIdx? isArithOpChar with
            | some opIdx => some (cp, opIdx, (suffix.drop opIdx).headD ' ')
            | none => none
          | none => none
        else none
      match arith? with
      | some (cp, opIdx, opChar) => do
        let l ← evaluateExpression fuel (expr.take (cp + 1))
        let r ← evaluateExpression fuel (expr.drop (cp + opIdx + 1))
        if opChar = '*' then pure (jsMulV l r)
        else if opChar = '/' then pure (jsDivV l r)
        else if opChar = '+' then pure (jsAddV l r)
        else pure (jsSubV l r)
      | none =>
        -- `(5 > 3) && (2 < 4)`-style expressions, with short-circuiting
        match matchParenLogical expr with
        | some (lft, op, rgt) => do
          let l ← evaluateExpression fuel lft
          if op = cs "&&" && !truthy l then pure (.bool false)
          else if op = cs "||" && truthy l then pure (.bool true)
          else evaluateExpression fuel rgt
        | none => evaluateExpressionRest2 fuel expr
    else evaluateExpressionRest2 fuel expr

/-- `_evaluateExpression`, parenthesised / string / array literals,
array access and the function-call dispatch. -/
def evaluateExpressionRest2 : Nat → Chars → EvalM Value
  | 0, _ => throwE fuelMsg
  | fuel + 1, expr =>
    let len : Int := expr.length
    if leadsWith expr ['('] && endsWithJS expr [')'] then
      evaluateExpression fuel (jsSubstring expr 1 (len - 1))
    else if (leadsWith expr ['"'] && endsWithJS expr ['"']) ||
        (leadsWith expr ['\x27'] && endsWithJS expr ['\x27']) then
      pure (.str (jsSubstring expr 1 (len - 1)))
    else if leadsWith expr ['['] && endsWithJS expr [']'] then
      let content := trimJS (jsSubstring expr 1 (len - 1))
      if content = [] then pure (.arr [])
      else do
        let vs ← evalItemsInOrder fuel (splitOnSub content [','])
        pure (.arr vs)
    else
      match matchArrayAccess expr with
      | some (varName, index) =>
        fun env =>
          if !envHas env varName then
            .err (cs "Variable \x27" ++ varName ++ cs "\x27 is not defined") env
          else match envGet env varName with
            | some (.arr items) =>
              if index ≥ items.length then
                .err (cs "Index out of bounds: " ++ natToChars index) env
              else match items.get? index with
                | some v => .ok v env
                | none => .err (cs "Index out of bounds: " ++ natToChars index) env
            | _ => .err (cs "Variable \x27" ++ varName ++ cs "\x27 is not an array") env
      | none =>
        if containsSub expr ['('] && endsWithJS expr [')'] then
          evaluateFunctionCall fuel expr
        else evaluateExpressionRest3 fuel expr

/-- `_evaluateExpression`, the comparison, arithmetic and logical
operators, numeric literals and identifier lookup, in source order. -/
def evaluateExpressionRest3 : Nat → Chars → EvalM Value
  | 0, _ => throwE fuelMsg
  | fuel + 1, expr =>
    if containsSub expr (cs "==") then
      match splitExpression expr (cs "==") with
      | .error m => throwE m
      | .ok (l, r) => do
        let lv ← evaluateExpression fuel l
        let rv ← evaluateExpression fuel r
        pure (.bool (jsStrictEq lv rv))
    else if containsSub expr (cs "!=") then
      match splitExpression expr (cs "!=") with
      | .error m => throwE m
      | .ok (l, r) => do
        let lv ← evaluateExpression fuel l
        let rv ← evaluateExpression fuel r
        pure (.bool (!jsStrictEq lv rv))
    else if containsSub expr (cs ">=") then
      match splitExpression expr (cs ">=") with
      | .error m => throwE m
      | .ok (l, r) => do
        let lv ← evaluateExpression fuel l
        let rv ← evaluateExpression fuel r
        pure (.bool (jsGeV lv rv))
    else if containsSub expr (cs "<=") then
      match splitExpression expr (cs "<=") with
      | .error m => throwE m
      | .ok (l, r) => do
        let lv ← evaluateExpression fuel l
        let rv ← evaluateExpression fuel r
        pure (.bool (jsLeV lv rv))
    else if containsSub expr (cs ">") then
      match splitExpression expr (cs ">") with
      | .error m => throwE m
      | .ok (l, r) => do
        let lv ← evaluateExpression fuel l
        let rv ← evaluateExpression fuel r
        pure (.bool (jsGtV lv rv))
    else if containsSub expr (cs "<") then
      match splitExpression expr (cs "<") with
      | .error m => throwE m
      | .ok (l, r) => do
        let lv ← evaluateExpression fuel l
        let rv ← evaluateExpression fuel r
        pure (.bool (jsLtV lv rv))
    else if containsSub expr (cs "+") then
      match splitExpression expr (cs "+") with
      | .error m => throwE m
      | .ok (l, r) => do
        let lv ← evaluateExpression fuel l
        let rv ← evaluateExpression fuel r
        pure (jsAddV lv rv)
    else if containsSub expr (cs "-") && !leadsWith expr ['-'] then
      match splitExpression expr (cs "-") with
      | .error m => throwE m
      | .ok (l, r) => do
        let lv ← evaluateExpression fuel l
        let rv ← evaluateExpression fuel r
        pure (jsSubV lv rv)
    else if containsSub expr (cs "*") then
      match splitExpression expr (cs "*") with
      | .error m => throwE m
      | .ok (l, r) => do
        let lv ← evaluateExpression fuel l
        let rv ← evaluateExpression fuel r
        pure (jsMulV lv rv)
    else if containsSub expr (cs "/") then
      match splitExpression expr (cs "/") with
      | .error m => throwE m
      | .ok (l, r) => do
        let rv ← evaluateExpression fuel r
        if isNumZero rv then throwE (cs "Division by zero")
        else do
          let lv ← evaluateExpression fuel l
          pure (jsDivV lv rv)
    else if containsSub expr (cs "&&") then
      match splitExpression expr (cs "&&") with
      | .error m => throwE m
      | .ok (l, r) => do
        let lv ← evaluateExpression fuel l
        if truthy lv then evaluateExpression fuel r else pure lv
    else if containsSub expr (cs "||") then
      match splitExpression expr (cs "||") with
      | .error m => throwE m
      | .ok (l, r) => do
        let lv ← evaluateExpression fuel l
        if truthy lv then pure lv else evaluateExpression fuel r
    else if leadsWith expr ['!'] then do
      let v ← evaluateExpression fuel (expr.drop 1)
      pure (.bool (!truthy v))
    else if leadsWith expr (cs "not ") then do
      let v ← evaluateExpression fuel (expr.drop 4)
      pure (.bool (!truthy v))
    else
      match parseFloatJS expr with
      | some q => pure (.num (.fin q))
      | none =>
        if isIdentChars expr then
          fun env =>
            match envGet env expr with
            | some v => .ok v env
            | none =>
              .err (cs "Variable \x27" ++ expr ++ cs "\x27 is not defined") env
        else throwE (cs "Unknown expression: " ++ expr)

/-- The method `_evaluateFunctionCall`. -/
def evaluateFunctionCall : Nat → Chars → EvalM Value
  | 0, _ => throwE fuelMsg
  | fuel + 1, expr =>
    match indexOfChar expr '(' with
    | none =>
      -- unreachable: both call sites require the expression to contain
      -- an opening parenthesis
      throwE (cs "Unknown function: ")
    | some openIdx =>
      let functionName := trimJS (expr.take openIdx)
      let closeIdx := findCloseParen expr openIdx
      let argsString := trimJS (jsSubstring expr (Int.ofNat openIdx + 1) (Int.ofNat closeIdx))
      if (functionName = cs "filter" || functionName = cs "all" ||
          functionName = cs "any") && containsSub argsString (cs "\x7b@it") then
        match indexOfChar argsString ',' with
        | none => throwE (functionName ++ cs "() requires two arguments")
        | some commaIdx =>
          let collectionExpr := trimJS (argsString.take commaIdx)
          let predicateExpr := trimJS (argsString.drop (commaIdx + 1))
          if !(leadsWith predicateExpr ['\x7b'] && endsWithJS predicateExpr ['\x7d']) then
            throwE (functionName ++ cs "() predicate must be enclosed in \x7b\x7d")
          else
            let predicate :=
              trimJS (jsSubstring predicateExpr 1 (Int.ofNat predicateExpr.length - 1))
            do
              let coll ← evaluateExpression fuel collectionExpr
              match coll with
              | .arr items =>
                if functionName = cs "filter" then do
                  let vs ← collFilterLoop fuel predicate items
                  pure (.arr vs)
                else if functionName = cs "all" then do
                  let b ← collEveryLoop fuel predicate items
                  pure (.bool b)
                else do
                  let b ← collSomeLoop fuel predicate items
                  pure (.bool b)
              | _ => throwE (functionName ++ cs "() first argument must be an array")
      else do
        let args ← if argsString = [] then pure [] else parseArgumentsJS fuel argsString
        builtinSwitch functionName args

/-- The method `_parseArguments`. -/
def parseArgumentsJS : Nat → Chars → EvalM (List Value)
  | 0, _ => throwE fuelMsg
  | fuel + 1, argsString =>
    if containsSub argsString (cs "\x7b@it") then
      match indexOfChar argsString ',' with
      | none => throwE (cs "Invalid function arguments")
      | some commaIdx =>
        let firstArg := trimJS (argsString.take commaIdx)
        let predicateExpr := trimJS (argsString.drop (commaIdx + 1))
        if !(leadsWith predicateExpr ['\x7b'] && endsWithJS predicateExpr ['\x7d']) then
          throwE (cs "Predicate must be enclosed in \x7b\x7d")
        else
          let predicate :=
            trimJS (jsSubstring predicateExpr 1 (Int.ofNat predicateExpr.length - 1))
          do
            let v ← evaluateExpression fuel firstArg
            pure [v, .predObj predicate]
    else parseArgsScan fuel argsString [] false ' ' 0 none []

/-- The character loop of `_parseArguments`: split the argument list at
top-level commas outside strings, evaluating each argument as it is
completed. -/
def parseArgsScan : Nat → Chars → Chars → Bool → Char → Int → Option Char →
    List Value → EvalM (List Value)
  | 0, _, _, _, _, _, _, _ => throwE fuelMsg
  | fuel + 1, s, currentRev, inString, stringChar, depth, prev, acc =>
    match s with
    | [] =>
      if trimJS currentRev.reverse ≠ [] then do
        let v ← evaluateExpression fuel (trimJS currentRev.reverse)
        pure (acc ++ [v])
      else pure acc
    | c :: rest =>
      let (inString2, stringChar2, depth2) := scanStep c prev inString stringChar depth
      if c = ',' && !inString2 && depth2 = 0 then do
        let v ← evaluateExpression fuel (trimJS currentRev.reverse)
        parseArgsScan fuel rest [] inString2 stringChar2 depth2 (some c) (acc ++ [v])
      else
        parseArgsScan fuel rest (c :: currentRev) inString2 stringChar2 depth2 (some c) acc

/-- Elements of an array literal, evaluated left to right. -/
def evalItemsInOrder : Nat → List Chars → EvalM (List Value)
  | 0, _ => throwE fuelMsg
  | _ + 1, [] => pure []
  | fuel + 1, item :: rest => do
    let v ← evaluateExpression fuel (trimJS item)
    let vs ← evalItemsInOrder fuel rest
    pure (v :: vs)

/-- `collection.filter` over the predicate in `_evaluateFunctionCall`:
bind `@it`, evaluate, and delete the binding in a `finally`, so the
deletion also happens when the predicate throws. -/
def collFilterLoop : Nat → Chars → List Value → EvalM (List Value)
  | 0, _, _ => throwE fuelMsg
  | _ + 1, _, [] => fun env => .ok [] env
  | fuel + 1, predicate, item :: rest => fun env =>
    let env1 := envSet env (cs "@it") item
    match evaluateExpression fuel predicate env1 with
    | .ok v env2 =>
      let env3 := envDelete env2 (cs "@it")
      (match collFilterLoop fuel predicate rest env3 with
       | .ok vs env4 => .ok (if truthy v then item :: vs else vs) env4
       | .err m env4 => .err m env4)
    | .err m env2 => .err m (envDelete env2 (cs "@it"))

/-- `collection.every` (used by `all`), with the same `finally`;
short-circuits at the first falsy predicate result. -/
def collEveryLoop : Nat → Chars → List Value → EvalM Bool
  | 0, _, _ => throwE fuelMsg
  | _ + 1, _, [] => fun env => .ok true env
  | fuel + 1, predicate, item :: rest => fun env =>
    let env1 := envSet env (cs "@it") item
    match evaluateExpression fuel predicate env1 with
    | .ok v env2 =>
      let env3 := envDelete env2 (cs "@it")
      if truthy v then collEveryLoop fuel predicate rest env3
      else .ok false env3
    | .err m env2 => .err m (envDelete env2 (cs "@it"))

/-- `collection.some` (used by `any`), with the same `finally`;
short-circuits at the first truthy predicate result. -/
def collSomeLoop : Nat → Chars → List Value → EvalM Bool
  | 0, _, _ => throwE fuelMsg
  | _ + 1, _, [] => fun env => .ok false env
  | fuel + 1, predicate, item :: rest => fun env =>
    let env1 := envSet env (cs "@it") item
    match evaluateExpression fuel predicate env1 with
    | .ok v env2 =>
      let env3 := envDelete env2 (cs "@it")
      if truthy v then .ok true env3
      else collSomeLoop fuel predicate rest env3
    | .err m env2 => .err m (envDelete env2 (cs "@it"))

end

/-- The method `_evaluateStatement`: a statement is treated as an
assignment exactly when it contains `=` but none of `==`, `>=`, `<=`,
`!=` (a substring test); the statement is then split at every `=` and
only the first two pieces are used. -/
def evaluateStatement (fuel : Nat) (statement0 : Chars) : EvalM Value :=
  let statement := trimJS statement0
  if containsSub statement (cs "=") && !containsSub statement (cs "==") &&
      !containsSub statement (cs ">=") && !containsSub statement (cs "<=") &&
      !containsSub statement (cs "!=") then
    match (splitOnSub statement ['=']).map trimJS with
    | varName :: valueExpr :: _ => do
      let v ← evaluateExpression fuel valueExpr
      modifyTheEnv (fun e => envSet e varName v)
      pure v
    | _ =>
      -- unreachable: a statement containing '=' splits into at least
      -- two pieces
      throwE (cs "Unknown expression: " ++ statement)
  else evaluateExpression fuel statement

/-- The loop over a semicolon-separated statement list in `evaluate`:
statements run left to right, the value of the last one is kept, and a
thrown error stops the loop while keeping the mutations already made. -/
def runStatements (fuel : Nat) : List Chars → EvalM Value
  | [] => throwE (cs "Unknown expression: ")
  | [stmt] => evaluateStatement fuel stmt
  | stmt :: next :: rest => do
    let _ ← evaluateStatement fuel stmt
    runStatements fuel (next :: rest)

/-- `collection.filter` in the fast path of `evaluate` (lines 67-73 of
the source): unlike `_evaluateFunctionCall`, the `@it` binding is
deleted after the predicate call with no `finally`, so when the
predicate throws the binding stays in the session environment. -/
def fastFilterLoop (fuel : Nat) (predicate : Chars) : List Value → EvalM (List Value)
  | [] => fun env => .ok [] env
  | item :: rest => fun env =>
    let env1 := envSet env (cs "@it") item
    match evaluateExpression fuel predicate env1 with
    | .ok v env2 =>
      let env3 := envDelete env2 (cs "@it")
      (match fastFilterLoop fuel predicate rest env3 with
       | .ok vs env4 => .ok (if truthy v then item :: vs else vs) env4
       | .err m env4 => .err m env4)
    | .err m env2 => .err m env2

/-- `collection.every` in the fast path of `evaluate` (again without a
`finally` around the deletion). -/
def fastEveryLoop (fuel : Nat) (predicate : Chars) : List Value → EvalM Bool
  | [] => fun env => .ok true env
  | item :: rest => fun env =>
    let env1 := envSet env (cs "@it") item
    match evaluateExpression fuel predicate env1 with
    | .ok v env2 =>
      let env3 := envDelete env2 (cs "@it")
      if truthy v then fastEveryLoop fuel predicate rest env3
      else .ok false env3
    | .err m env2 => .err m env2

/-- `collection.some` in the fast path of `evaluate`. -/
def fastSomeLoop (fuel : Nat) (predicate : Chars) : List Value → EvalM Bool
  | [] => fun env => .ok false env
  | item :: rest => fun env =>
    let env1 := envSet env (cs "@it") item
    match evaluateExpression fuel predicate env1 with
    | .ok v env2 =>
      let env3 := envDelete env2 (cs "@it")
      if truthy v then .ok true env3
      else fastSomeLoop fuel predicate rest env3
    | .err m env2 => .err m env2

/-- Outcome of the public entry point: the source's
`\x7bsuccess, result\x7d` / `\x7bsuccess, error\x7d` object. -/
inductive Outcome where
  | success (result : Chars)
  | failure (error : Chars)
deriving DecidableEq

/-- Recursion fuel supplied by the entry point; the evaluator only ever
recurses on substrings or moves to the next fall-through region, so
this bound exceeds the depth reachable from `expr`. -/
def fuelFor (expr : Chars) : Nat := 16 * expr.length + 64

/-- The tail of `evaluate`: run the input as a single statement,
formatting the value or wrapping the thrown message. -/
def evaluateGeneral (env : Env) (expr : Chars) : Outcome × Env :=
  match evaluateStatement (fuelFor expr) expr env with
  | .ok v env2 => (.success (formatValue v), env2)
  | .err m env2 => (.failure (cs "Error evaluating expression: " ++ m), env2)

/-- The public method `evaluate(expr)`: the empty check, the quoted
string comparison special case, the semicolon-separated statement
path, the regex fast path for `filter`/`all`/`any` on a named
collection, and otherwise a single statement.  The result also carries
the session environment after the call (the source mutates
`this.environment` in place). -/
def evaluate (env : Env) (expr : Chars) : Outcome × Env :=
  if trimJS expr = [] then (.failure (cs "Expression cannot be empty"), env)
  else if matchStrEqCase '"' expr || matchStrEqCase '\x27' expr then
    match (splitOnSub expr (cs "==")).map trimJS with
    | p0 :: p1 :: _ =>
      let left := jsSubstring p0 1 (Int.ofNat p0.length - 1)
      let right := jsSubstring p1 1 (Int.ofNat p1.length - 1)
      (.success (if left = right then cs "True" else cs "False"), env)
    | _ =>
      -- unreachable: the regex guarantees a `==` in the input
      (.failure (cs "Error evaluating expression: "), env)
  else if containsSub expr [';'] then
    let statements := ((splitOnSub expr [';']).map trimJS).filter (fun s => s ≠ [])
    match statements with
    | [] =>
      -- the source reads `.value` of an undefined `result` here; the
      -- thrown TypeError is caught by the surrounding try
      (.failure (cs "Error evaluating expression: Cannot read properties of undefined (reading \x27value\x27)"),
        env)
    | _ :: _ =>
      match runStatements (fuelFor expr) statements env with
      | .ok v env2 => (.success (formatValue v), env2)
      | .err m env2 => (.failure (cs "Error evaluating expression: " ++ m), env2)
  else if matchCollFastPre expr then
    match matchCollFastFull expr with
    | some (fname, collName, predicate) =>
      if !envHas env collName then
        (.failure (cs "Variable \x27" ++ collName ++ cs "\x27 is not defined"), env)
      else
        (match envGet env collName with
         | some (.arr items) =>
           if fname = cs "filter" then
             match fastFilterLoop (fuelFor expr) predicate items env with
             | .ok vs env2 => (.success (formatValue (.arr vs)), env2)
             | .err m env2 =>
               (.failure (cs "Error evaluating " ++ fname ++ cs "(): " ++ m), env2)
           else if fname = cs "all" then
             match fastEveryLoop (fuelFor expr) predicate items env with
             | .ok b env2 => (.success (formatValue (.bool b)), env2)
             | .err m env2 =>
               (.failure (cs "Error evaluating " ++ fname ++ cs "(): " ++ m), env2)
           else
             match fastSomeLoop (fuelFor expr) predicate items env with
             | .ok b env2 => (.success (formatValue (.bool b)), env2)
             | .err m env2 =>
               (.failure (cs "Error evaluating " ++ fname ++ cs "(): " ++ m), env2)
         | _ =>
           (.failure (cs "Variable \x27" ++ collName ++ cs "\x27 is not an array"), env))
    | none => evaluateGeneral env expr
  else evaluateGeneral env expr

/-- The constructor of `ExpressionLanguageParser`: the session starts
with the single binding `myCollection = [1, 2, 3]`. -/
def initialEnvironment : Env :=
  [(cs "myCollection",
    .arr [.num (jnOfNat 1), .num (jnOfNat 2), .num (jnOfNat 3)])]

/-- Claim C1.  The claim says `@it` is never stored in the session
environment, is removed unconditionally on exit from a predicate
whether it succeeds or fails, and that `@it` outside a predicate
always fails with UndefinedVariable.  The code violates all three: the
fast path of `evaluate` binds `@it` directly in `this.environment`
with no `finally`, so when the predicate throws (here because
`undefinedVar` is unbound) the call fails but `@it` stays bound in the
session, and a following bare `@it` succeeds with the leaked value
`1` instead of failing. -/
theorem c1_it_leaks_into_environment :
    evaluate initialEnvironment (cs "filter(myCollection, \x7b@it + undefinedVar\x7d)") =
      (.failure (cs "Error evaluating filter(): Variable \x27undefinedVar\x27 is not defined"),
        initialEnvironment ++ [(cs "@it", .num (jnOfNat 1))]) ∧
    (evaluate (initialEnvironment ++ [(cs "@it", .num (jnOfNat 1))]) (cs "@it")).1 =
      .success (cs "1") :=
  ⟨rfl, rfl⟩

/-- Claim C2.  The claim says `&&` short-circuits so that
`evaluate("false && (1/0 == 0)")` must not raise DivisionByZero and
returns success `"False"`.  In the code that input contains `(` and
ends with `)`, so `_evaluateExpression` dispatches it to
`_evaluateFunctionCall` as a call to a function named `false &&`,
whose argument `1/0 == 0` is evaluated eagerly and throws
`Division by zero`; the call fails.  (When the dispatch does reach the
`&&` branch the JavaScript conjunction does short-circuit, as the
second conjunct shows: the unbound right operand is never evaluated.) -/
theorem c2_short_circuit_divergence :
    (evaluate initialEnvironment (cs "false && (1/0 == 0)")).1 =
      .failure (cs "Error evaluating expression: Division by zero") ∧
    evaluate initialEnvironment (cs "false && undefinedVar") =
      (.success (cs "False"), initialEnvironment) :=
  ⟨rfl, rfl⟩

/-- Claim C3.  The claim says every collection call
`IDENT '(' expr ',' '\x7b' expr '\x7d' ')'` is parsed uniformly: the
collection may be any expression (so `filter([1,2,3], \x7b@it > 1\x7d)`
succeeds with `"[2, 3]"`) and a predicate not textually starting with
`@it` (such as `\x7b1 == @it\x7d`) is accepted.  In the code the fast-path
regex requires a bare identifier collection followed literally by
`\x7b@it`, so both inputs fall through to `_evaluateExpression`, which
throws on any expression containing `@it` without an active binding;
both fail with the `@it`-scoping error.  Only the literal shape
`filter(name, \x7b@it ...\x7d)` works (third conjunct). -/
theorem c3_collection_call_not_uniform :
    (evaluate initialEnvironment (cs "filter([1,2,3], \x7b@it > 1\x7d)")).1 =
      .failure (cs "Error evaluating expression: " ++ itOnlyMsg) ∧
    (evaluate initialEnvironment (cs "filter(myCollection, \x7b1 == @it\x7d)")).1 =
      .failure (cs "Error evaluating expression: " ++ itOnlyMsg) ∧
    evaluate initialEnvironment (cs "filter(myCollection, \x7b@it > 1\x7d)") =
      (.success (cs "[2, 3]"), initialEnvironment) :=
  ⟨rfl, rfl, rfl⟩

/-- Claim C4, counterexample.  The claim says arrays compare
element-wise recursively, so `evaluate("[1,2] == [1,2]")` returns
`"True"`.  In the code the input starts with `[` and ends with `]`, so
it is parsed as an array literal whose content is split blindly at
commas; the fragment `[1` is then an unknown expression and the call
fails, not returning `"True"`. -/
theorem c4_array_literal_equality_fails :
    (evaluate initialEnvironment (cs "[1,2] == [1,2]")).1 =
      .failure (cs "Error evaluating expression: Unknown expression: [1") ∧
    (evaluate initialEnvironment (cs "[1,2] == [1,2]")).1 ≠
      .success (cs "True") :=
  ⟨rfl, by decide⟩

/-- Claim C4, amended.  Equality (`==`, `!=`) is JavaScript strict
equality: numbers by value, booleans by value, strings by content
(a top-level comparison of two quoted literals is answered by a
special-cased path), and comparing different kinds yields False/True
without erroring; but arrays are not compared element-wise — an array
operand is compared by object reference, and the literal input
`[1,2] == [1,2]` is mis-parsed as an array literal and fails. -/
theorem c4_amended_equality :
    evaluate initialEnvironment (cs "\"abc\" == \"abc\"") =
      (.success (cs "True"), initialEnvironment) ∧
    evaluate initialEnvironment (cs "5 == 5") =
      (.success (cs "True"), initialEnvironment) ∧
    evaluate initialEnvironment (cs "1 == \"abc\"") =
      (.success (cs "False"), initialEnvironment) ∧
    evaluate initialEnvironment (cs "1 != \"abc\"") =
      (.success (cs "True"), initialEnvironment) ∧
    (evaluate initialEnvironment (cs "[1,2] == [1,2]")).1 =
      .failure (cs "Error evaluating expression: Unknown expression: [1") :=
  ⟨rfl, rfl, rfl, rfl, rfl⟩

/-- Claim C5.  The claim says `+ - * /` require Number operands and
fail with TypeMismatch otherwise, in particular `+` never
concatenates.  In the code `+` is JavaScript addition, so
`evaluate("1 + \"x\"")` succeeds with the concatenation `"1x"` instead
of failing.  The DivisionByZero half of the claim does hold on the
main path (second conjunct). -/
theorem c5_plus_concatenates :
    evaluate initialEnvironment (cs "1 + \"x\"") =
      (.success (cs "\"1x\""), initialEnvironment) ∧
    (evaluate initialEnvironment (cs "6 / 0")).1 =
      .failure (cs "Error evaluating expression: Division by zero") :=
  ⟨rfl, rfl⟩

/-- Claim C6, counterexample.  The claim says equal-precedence
operators associate to the left, so `"10 - 2 - 3"` evaluates as
`(10 - 2) - 3 = 5`.  The code splits at the first `-`, evaluating
`10 - (2 - 3) = 11`. -/
theorem c6_subtraction_associates_right :
    (evaluate initialEnvironment (cs "10 - 2 - 3")).1 = .success (cs "11") ∧
    (evaluate initialEnvironment (cs "10 - 2 - 3")).1 ≠ .success (cs "5") :=
  ⟨rfl, by decide⟩

/-- Claim C6, amended.  Multiplicative operators do bind tighter than
additive ones (`"2 + 3 * 4"` gives `"14"`, `"(2 + 3) * 4"` gives
`"20"`), but a chain of equal-precedence operators is split at the
first occurrence, so `-` chains effectively associate to the right:
`"10 - 2 - 3"` evaluates as `10 - (2 - 3)` and returns `"11"`. -/
theorem c6_amended_precedence :
    evaluate initialEnvironment (cs "2 + 3 * 4") =
      (.success (cs "14"), initialEnvironment) ∧
    evaluate initialEnvironment (cs "(2 + 3) * 4") =
      (.success (cs "20"), initialEnvironment) ∧
    evaluate initialEnvironment (cs "10 - 2 - 3") =
      (.success (cs "11"), initialEnvironment) :=
  ⟨rfl, rfl, rfl⟩

/-- Claim C7, counterexample.  The claim says disambiguation is by
token, so `"x = 5 == 3"` is still recognized as an assignment binding
`x`.  The code disambiguates by substring: any statement containing
`==` is never an assignment, so this input is evaluated as an
expression, fails with `Unknown expression: x = 5`, and leaves the
environment unchanged (`x` is not bound). -/
theorem c7_assignment_rhs_equality_rejected :
    evaluate initialEnvironment (cs "x = 5 == 3") =
      (.failure (cs "Error evaluating expression: Unknown expression: x = 5"),
        initialEnvironment) :=
  rfl

/-- Claim C7, amended.  A statement is treated as an assignment exactly
when it contains `=` and contains none of `==`, `>=`, `<=`, `!=`
anywhere (a substring test, not a token test).  Consequently `==` is
never misparsed as assignment (second conjunct leaves the environment
unchanged), but a genuine assignment whose right side contains `==`,
such as `"x = 5 == 3"`, is not recognized as an assignment: it fails
and binds nothing. -/
theorem c7_amended_assignment :
    evaluate initialEnvironment (cs "x = 5") =
      (.success (cs "5"), initialEnvironment ++ [(cs "x", .num (jnOfNat 5))]) ∧
    evaluate initialEnvironment (cs "5 == 5") =
      (.success (cs "True"), initialEnvironment) ∧
    evaluate initialEnvironment (cs "x = 5 == 3") =
      (.failure (cs "Error evaluating expression: Unknown expression: x = 5"),
        initialEnvironment) :=
  ⟨rfl, rfl, rfl⟩

/-- Claim C8.  Semicolon-separated statements run left to right, each
successful assignment mutates the environment immediately (the second
conjunct's `x = x + 1` sees the fresh binding), the value of the
sequence is the value of its last statement, and the first failing
statement aborts the call while bindings made before it remain: after
`"x = 5; undefinedVar"` fails, `x` is still bound to `5` and a
follow-up `"x"` succeeds. -/
theorem c8_sequence_semantics :
    evaluate initialEnvironment (cs "x = 5; y = 10; x + y") =
      (.success (cs "15"),
        initialEnvironment ++ [(cs "x", .num (jnOfNat 5)), (cs "y", .num (jnOfNat 10))]) ∧
    evaluate initialEnvironment (cs "x = 1; x = x + 1; x") =
      (.success (cs "2"), initialEnvironment ++ [(cs "x", .num (jnOfNat 2))]) ∧
    evaluate initialEnvironment (cs "x = 5; undefinedVar") =
      (.failure (cs "Error evaluating expression: Variable \x27undefinedVar\x27 is not defined"),
        initialEnvironment ++ [(cs "x", .num (jnOfNat 5))]) ∧
    (evaluate (initialEnvironment ++ [(cs "x", .num (jnOfNat 5))]) (cs "x")).1 =
      .success (cs "5") :=
  ⟨rfl, rfl, rfl, rfl⟩

/-- Claim C9, counterexample.  The claim says any input containing an
unrecognized character fails with a lexical error, and in particular
`evaluate("5 @@ 3")` must fail rather than return `"5"`.  There is no
tokenizer: the input reaches the `parseFloat` branch, which accepts
the numeric prefix `5` and silently discards the rest, so the call
succeeds with `"5"`. -/
theorem c9_unrecognized_chars_accepted :
    evaluate initialEnvironment (cs "5 @@ 3") =
      (.success (cs "5"), initialEnvironment) :=
  rfl

/-- Claim C9, amended.  Evaluation has no lexical pass: an input with
unrecognized characters fails only when no evaluation rule applies,
with a generic `Unknown expression` error naming the whole text rather
than a character position, and an input with a numeric prefix such as
`"5 @@ 3"` is accepted by `parseFloat` and returns the prefix value. -/
theorem c9_amended_lexical :
    evaluate initialEnvironment (cs "5 @@ 3") =
      (.success (cs "5"), initialEnvironment) ∧
    evaluate initialEnvironment (cs "#") =
      (.failure (cs "Error evaluating expression: Unknown expression: #"),
        initialEnvironment) :=
  ⟨rfl, rfl⟩

/-- Claim C10.  A fresh session's environment holds exactly the one
binding `myCollection = [1, 2, 3]`, and before any assignment
`evaluate("myCollection")` succeeds with `"[1, 2, 3]"`, leaving the
environment unchanged. -/
theorem c10_initial_environment :
    initialEnvironment =
      [(cs "myCollection",
        Value.arr [.num (jnOfNat 1), .num (jnOfNat 2), .num (jnOfNat 3)])] ∧
    evaluate initialEnvironment (cs "myCollection") =
      (.success (cs "[1, 2, 3]"), initialEnvironment) :=
  ⟨rfl, rfl⟩

end ExprLang
